import Mathlib

/-!
Verification of the srerickson/checksum worker-pool library.

The development shallowly embeds the Go sources: bytes are Fin 256, a Go
byte slice is a List of bytes (with Option marking a possibly nil slice),
Go errors are Option String, and the hash.Hash accumulator supplied by an
Alg constructor is modelled as a pure digest function applied to the bytes
the accumulator has absorbed (the absorbed bytes are threaded explicitly,
mirroring Write; Sum applies the digest function to them).  The virtual
filesystem fs.FS is a function from paths to either an open error or the
opened file, where the file carries its Stat outcome, the sequence of
chunks a sequential read delivers, and an optional read error occurring
after those chunks.  The concurrent pool (pipe.go, unnamed/part_001) is
embedded as a small-step relation on pool states; goroutines are
interchangeable, so workers are tracked as counters plus the multiset of
jobs currently being digested.
-/

namespace Checksum

/-- A byte, as carried by Go byte slices. -/
abbrev Byte := Fin 256

/-- Model of the Alg type (a constructor of a streaming hash accumulator):
a fresh accumulator has absorbed no bytes, Write appends bytes, and
Sum(nil) is a pure function of the absorbed byte sequence.  Alg is that
pure digest function. -/
abbrev Alg := List Byte → List Byte

/-- Model of the fs.FileInfo metadata returned by Stat. -/
structure FileInfo where
  size : Nat
  mode : Nat
  modTime : Nat

/-- Model of an opened fs.File: the outcome of Stat, the chunks a full
sequential read delivers in order, and an optional read error occurring
after those chunks were delivered (none means clean EOF). -/
structure FSFile where
  statRes : Except String FileInfo
  chunks : List (List Byte)
  readErr : Option String

/-- Model of fs.FS: opening a path either fails or yields a file. -/
abbrev FS := String → Except String FSFile

/-- Embeds the Job struct of unnamed/part_006: path, hash constructors,
expected checksum, per-algorithm checksum results, error, filesystem and
file metadata.  A nil byte slice for the expected checksum is Option none. -/
structure Job where
  path : String
  algs : List Alg
  valid : Option (List Byte)
  sums : List (List Byte)
  err : Option String
  fsys : FS
  info : Option FileInfo

/-- Embeds io.Copy writing into the io.MultiWriter over every hash
accumulator: each delivered chunk is appended to the absorbed bytes of
every accumulator, in order.  The second component counts Read calls made
on the file: one per chunk plus the final call that reports EOF or the
read error. -/
def multiCopy : List (List Byte) → List (Alg × List Byte) → List (Alg × List Byte) × Nat
  | [], hs => (hs, 1)
  | c :: rest, hs =>
    let r := multiCopy rest (hs.map (fun h => (h.1, h.2 ++ c)))
    (r.1, r.2 + 1)

/-- Embeds the method do of Job in unnamed/part_006, instrumented with a
flag recording whether the engine attempted to open the file.  If the Job
already carries an error, return at once.  Otherwise open the path, stat
the file, build one fresh accumulator per configured algorithm, run one
io.Copy of the content into the MultiWriter over all of them, and on
success append every finalized digest to sums.  Any failure records the
error and leaves sums untouched. -/
def Job.doT (j : Job) : Job × Bool :=
  if j.err.isSome then (j, false)
  else
    match j.fsys j.path with
    | Except.error e => ({ j with err := some e }, true)
    | Except.ok file =>
      match file.statRes with
      | Except.error e => ({ j with err := some e }, true)
      | Except.ok inf =>
        let hashes := j.algs.map (fun a => (a, ([] : List Byte)))
        let copied := multiCopy file.chunks hashes
        match file.readErr with
        | some e => ({ j with info := some inf, err := some e }, true)
        | none =>
          ({ j with info := some inf,
                    sums := j.sums ++ copied.1.map (fun h => h.1 h.2) }, true)

/-- The method do of Job, forgetting the instrumentation flag.  The name
do is reserved in Lean, hence doJob. -/
def Job.doJob (j : Job) : Job := (Job.doT j).1

/-- A filesystem on which every open fails; used for concrete instances. -/
def fsEmpty : FS := fun _ => Except.error "open failed"

theorem multiCopy_fst (chunks : List (List Byte)) :
    ∀ hs : List (Alg × List Byte),
      (multiCopy chunks hs).1 = hs.map (fun h => (h.1, h.2 ++ chunks.flatten)) := by
  induction chunks with
  | nil =>
    intro hs
    simp [multiCopy]
  | cons c rest ih =>
    intro hs
    simp [multiCopy, ih, List.map_map, Function.comp, List.append_assoc]

theorem multiCopy_snd (chunks : List (List Byte)) :
    ∀ hs : List (Alg × List Byte), (multiCopy chunks hs).2 = chunks.length + 1 := by
  induction chunks with
  | nil => intro hs; simp [multiCopy]
  | cons c rest ih => intro hs; simp [multiCopy, ih]

/-- Reads a Go byte slice that may be nil as a byte sequence, the way
bytes.Equal and hex.EncodeToString do: nil reads as the empty sequence. -/
def optBytes (o : Option (List Byte)) : List Byte := o.getD []

/-- Embeds the Job struct of the single-algorithm variant in src/job.go:
path, hash constructor, expected checksum, checksum result, error,
filesystem and file metadata.  The sum and valid slices may be nil. -/
structure JobV2 where
  path : String
  alg : Alg
  valid : Option (List Byte)
  sum : Option (List Byte)
  err : Option String
  fsys : FS
  info : Option FileInfo

/-- Embeds the Go builtin copy(dst, src): the first min(len dst, len src)
elements of dst are overwritten by src, and the result is the mutated dst. -/
def goCopy (dst src : List Byte) : List Byte :=
  src.take dst.length ++ dst.drop src.length

/-- Embeds the accessor Sum of src/job.go (second variant): it declares a
nil destination slice, runs copy into it, and returns the destination. -/
def JobV2.Sum (j : JobV2) : List Byte :=
  goCopy [] (optBytes j.sum)

/-- The lowercase hexadecimal digit character for a value below sixteen,
as used by encoding/hex. -/
def hexDigit (i : Fin 16) : Char :=
  Nat.digitChar i.val

/-- Embeds hex.EncodeToString on a single byte: high nibble then low
nibble. -/
def hexEncodeByte (b : Byte) : List Char :=
  [hexDigit ⟨b.val / 16, by have h := b.isLt; omega⟩,
   hexDigit ⟨b.val % 16, by omega⟩]

/-- Embeds hex.EncodeToString on a byte slice; a Go string is modelled as
its list of characters. -/
def hexEncode (bs : List Byte) : List Char :=
  (bs.map hexEncodeByte).flatten

/-- Embeds the accessor SumString of src/job.go (second variant):
hex.EncodeToString of the stored checksum slice. -/
def JobV2.SumString (j : JobV2) : List Char :=
  hexEncode (optBytes j.sum)

/-- Embeds the method IsValid shared verbatim by all three Job variants
(src/job.go lines 23 to 26 and 125 to 128, src/checksum.go lines 75 to 78):
the stored sum is non-nil and bytes.Equal of sum and valid holds, where
bytes.Equal compares contents and treats nil as empty. -/
def JobV2.IsValid (j : JobV2) : Bool :=
  j.sum.isSome && decide (optBytes j.sum = optBytes j.valid)

/-- Embeds the method Add of Pipe in unnamed/part_001: construct the Job
for the path from the pipe filesystem and configured algorithms, then
select on the context; if the context is already cancelled return the
walk-canceled error without touching the input channel, otherwise send the
Job on the input channel (modelled as appending to the pending queue). -/
def pipeAdd (cancelled : Bool) (fsys : FS) (algs : List Alg) (path : String)
    (queue : List Job) : Except String (List Job) :=
  let j : Job :=
    { path := path, algs := algs, valid := none, sums := [], err := none,
      fsys := fsys, info := none }
  if cancelled then Except.error "walk canceled"
  else Except.ok (queue ++ [j])

/-- Embeds the configuration record consumed by NewPipe in
unnamed/part_001: worker count and the configured algorithm list. -/
structure Config where
  numGos : Nat
  algs : List Alg

/-- Embeds the option WithGoNum and PipeGos: a requested worker count
below one is coerced to one. -/
def withGoNum (n : Int) : Int :=
  if n < 1 then 1 else n

/-- Embeds the construction phase of NewPipe in unnamed/part_001: after
the options are applied, an empty algorithm list is rejected with a
construction error; only on success does the constructor go on to spawn
the workers from the returned configuration. -/
def part001NewPipe (fsys : FS) (conf : Config) : Except String (FS × Config) :=
  if conf.algs.length = 0 then Except.error "checksum algorithms not defined"
  else Except.ok (fsys, conf)

/-- Opaque stand-in for the externally supplied sha256 constructor
(algorithm implementations are out of scope per the spec); only its
identity as a registered default matters to the construction logic. -/
def sha256New : Alg := fun _ => List.replicate 32 0

/-- Embeds the algorithm defaulting of NewPipe in src/pipe.go: that
variant never fails; when no PipeAlg option appended an algorithm, the nil
list is silently replaced by the sha256 default. -/
def pipeV1DefaultAlgs (algs : List Alg) : List Alg :=
  if algs.isEmpty then [sha256New] else algs

/-- Embeds the WalkErr struct of src/walk.go: the error returned from
WalkDir and the error returned from the job callback, combined in one
object. -/
structure WalkErr where
  walkDirErr : Option String
  jobFuncErr : Option String

/-- Embeds the result-draining loop of Walk in src/walk.go (second
variant): completed jobs are drained in order; while no callback error has
been recorded the callback runs on the job and its error, and after the
first callback error the remaining jobs are still drained but the callback
is no longer invoked.  Returns the recorded callback error and the list of
jobs on which the callback was invoked. -/
def walkLoop (each : Job → Option String → Option String) :
    Option String → List Job → Option String × List Job
  | acc, [] => (acc, [])
  | acc, j :: rest =>
    match acc with
    | none =>
      let e := each j j.err
      let r := walkLoop each e rest
      (r.1, j :: r.2)
    | some msg => walkLoop each (some msg) rest

/-- Embeds the terminal-error logic of Walk in src/walk.go (second
variant), given the outcome of the WalkDir goroutine and the drained
results: if either the callback error or the WalkDir error is non-nil,
return the composite WalkErr carrying both; otherwise return nil. -/
def Walk (walkDirErr : Option String) (results : List Job)
    (each : Job → Option String → Option String) : Option WalkErr :=
  let jfe := (walkLoop each none results).1
  if jfe.isSome || walkDirErr.isSome then some ⟨walkDirErr, jfe⟩ else none

/-- State of a running Pipe (pipe.go and unnamed/part_001).  Goroutines of
the pool run one identical loop, so the workers are tracked as the number
currently blocked on the input channel (idleW), the jobs currently being
processed (runW, one per busy worker), and the number that have exited
(exitedW); numGos is the configured pool size and never changes.  queue
holds accepted jobs not yet taken by a worker, out the results emitted so
far in emission order, opens counts files the digest engine attempted to
open, and accepted counts submissions that passed the cancellation check
in Add. -/
structure PoolState where
  numGos : Nat
  accepted : Nat
  queue : List Job
  inClosed : Bool
  idleW : Nat
  runW : List Job
  exitedW : Nat
  out : List Job
  outClosed : Bool
  cancelled : Bool
  opens : Nat

/-- The state of a Pipe as NewPipe returns it: n workers blocked on the
empty input channel, nothing accepted, nothing emitted, both channels
open, context not cancelled. -/
def initState (n : Nat) : PoolState :=
  { numGos := n, accepted := 0, queue := [], inClosed := false,
    idleW := n, runW := [], exitedW := 0, out := [], outClosed := false,
    cancelled := false, opens := 0 }

/-- Small-step semantics of the pool.  Each constructor embeds one atomic
event of the Go code: submit is the send in Add after its cancellation
check succeeds; closeInput is Close; cancel is the context being
cancelled (it never unfires); dequeue is a worker receiving from the input
channel; discard is the select in the worker loop observing the cancelled
context and dropping the job without running the digest engine; emit is
the default branch running the digest engine and sending the completed job
on the output channel; wexit is the range loop of a worker ending once the
input channel is closed and drained; closeOut is the goroutine running
wg.Wait observing that every worker has exited and closing the output
channel. -/
inductive Step : PoolState → PoolState → Prop
  | submit (s : PoolState) (j : Job) :
      s.cancelled = false → s.inClosed = false →
      Step s { s with queue := s.queue ++ [j], accepted := s.accepted + 1 }
  | closeInput (s : PoolState) :
      s.inClosed = false →
      Step s { s with inClosed := true }
  | cancel (s : PoolState) :
      Step s { s with cancelled := true }
  | dequeue (s : PoolState) (j : Job) (rest : List Job) :
      0 < s.idleW → s.queue = j :: rest →
      Step s { s with queue := rest, idleW := s.idleW - 1, runW := j :: s.runW }
  | discard (s : PoolState) (j : Job) (l1 l2 : List Job) :
      s.runW = l1 ++ j :: l2 → s.cancelled = true →
      Step s { s with runW := l1 ++ l2, idleW := s.idleW + 1 }
  | emit (s : PoolState) (j : Job) (l1 l2 : List Job) :
      s.runW = l1 ++ j :: l2 → s.cancelled = false →
      Step s { s with runW := l1 ++ l2, idleW := s.idleW + 1,
                      out := s.out ++ [Job.doJob j],
                      opens := s.opens + (if (Job.doT j).2 then 1 else 0) }
  | wexit (s : PoolState) :
      0 < s.idleW → s.queue = [] → s.inClosed = true →
      Step s { s with idleW := s.idleW - 1, exitedW := s.exitedW + 1 }
  | closeOut (s : PoolState) :
      s.exitedW = s.numGos → s.outClosed = false →
      Step s { s with outClosed := true }

/-- Reachability: zero or more pool steps. -/
def Reach : PoolState → PoolState → Prop :=
  Relation.ReflTransGen Step

/-- Inductive invariant of the pool: worker conservation, conservation of
accepted jobs among emitted, queued and in-flight jobs (an inequality once
cancellation may discard, an equality while the context is alive), a
worker exits only after the input channel is closed, once every worker has
exited the input queue stays empty, the output channel is closed only
after every worker has exited, and every emitted result is the digest
engine output for some accepted job. -/
structure Inv (s : PoolState) : Prop where
  wcount : s.idleW + s.runW.length + s.exitedW = s.numGos
  outLe : s.out.length + s.queue.length + s.runW.length ≤ s.accepted
  outEq : s.cancelled = false →
    s.out.length + s.queue.length + s.runW.length = s.accepted
  exitClosed : 0 < s.exitedW → s.inClosed = true
  exitQueue : 0 < s.numGos → s.exitedW = s.numGos → s.queue = []
  closedExit : s.outClosed = true → s.exitedW = s.numGos
  outShape : ∀ x ∈ s.out, ∃ j, x = Job.doJob j

theorem inv_init (n : Nat) : Inv (initState n) := by
  constructor <;> simp [initState]

theorem inv_step {s t : PoolState} (h : Step s t) (hs : Inv s) : Inv t := by
  obtain ⟨w, le, eq, ec, eq2, ce, os⟩ := hs
  cases h with
  | submit j hc hin =>
    refine ⟨by simpa using w, by simp; omega,
      fun hcf => by simp at hcf ⊢; have := eq hcf; omega,
      fun he => by simpa using ec (by simpa using he), ?_, by simpa using ce,
      by simpa using os⟩
    intro hpos hex
    simp at hex hpos
    exact absurd (ec (by omega)) (by simp [hin])
  | closeInput hin =>
    exact ⟨w, le, eq, fun _ => rfl, fun hp he => by simpa using eq2 (by simpa using hp) (by simpa using he), by simpa using ce, os⟩
  | cancel =>
    exact ⟨w, le, by simp, ec, fun hp he => by simpa using eq2 (by simpa using hp) (by simpa using he), by simpa using ce, os⟩
  | dequeue j rest hidle hq =>
    refine ⟨by simp; omega, ?_, ?_, by simpa using ec, ?_, by simpa using ce,
      by simpa using os⟩
    · rw [hq] at le
      simp at le ⊢
      omega
    · intro hcf
      simp at hcf
      have := eq hcf
      rw [hq] at this
      simp at this ⊢
      omega
    · intro hpos hex
      simp at hex hpos
      have := eq2 hpos hex
      rw [hq] at this
      simp at this
  | discard j l1 l2 hrun hc =>
    refine ⟨?_, ?_, by simp [hc], by simpa using ec,
      fun hp he => by simpa using eq2 (by simpa using hp) (by simpa using he),
      by simpa using ce, by simpa using os⟩
    · rw [hrun] at w
      simp at w ⊢
      omega
    · rw [hrun] at le
      simp at le ⊢
      omega
  | emit j l1 l2 hrun hc =>
    refine ⟨?_, ?_, ?_, by simpa using ec,
      fun hp he => by simpa using eq2 (by simpa using hp) (by simpa using he),
      by simpa using ce, ?_⟩
    · rw [hrun] at w
      simp at w ⊢
      omega
    · rw [hrun] at le
      simp at le ⊢
      omega
    · intro hcf
      simp at hcf
      have := eq hcf
      rw [hrun] at this
      simp at this ⊢
      omega
    · intro x hx
      simp at hx
      rcases hx with hx | hx
      · exact os x hx
      · exact ⟨j, hx⟩
  | wexit hidle hq hin =>
    refine ⟨by simp; omega, by simpa using le, by simpa using eq,
      fun _ => by simpa using hin, fun _ _ => by simpa using hq, ?_,
      by simpa using os⟩
    intro hoc
    simp at hoc ⊢
    have := ce hoc
    omega
  | closeOut hex hoc =>
    exact ⟨w, le, eq, ec,
      fun hp he => by simpa using eq2 (by simpa using hp) (by simpa using he),
      fun _ => by simpa using hex, os⟩

theorem inv_reach {n : Nat} {s : PoolState} (h : Reach (initState n) s) : Inv s := by
  induction h with
  | refl => exact inv_init n
  | tail _ hstep ih => exact inv_step hstep ih

/-- The cancellation signal is monotone: no step unfires it. -/
theorem cancel_mono_step {s t : PoolState} (h : Step s t)
    (hc : s.cancelled = true) : t.cancelled = true := by
  cases h <;> first | exact hc | simp

theorem cancel_mono {s t : PoolState} (h : Reach s t)
    (hc : s.cancelled = true) : t.cancelled = true := by
  induction h with
  | refl => exact hc
  | tail _ hstep ih => exact cancel_mono_step hstep ih

/-- The configured pool size never changes. -/
theorem numGos_const_step {s t : PoolState} (h : Step s t) : t.numGos = s.numGos := by
  cases h <;> rfl

theorem numGos_const {s t : PoolState} (h : Reach s t) : t.numGos = s.numGos := by
  induction h with
  | refl => rfl
  | tail _ hstep ih => rw [numGos_const_step hstep, ih]

/-- Once the cancellation signal has fired, a single step accepts no
submission, emits no result and opens no file. -/
theorem cancelled_frozen_step {s t : PoolState} (h : Step s t)
    (hc : s.cancelled = true) : t.accepted = s.accepted ∧ t.out = s.out ∧ t.opens = s.opens := by
  cases h with
  | submit j hcf hin => rw [hcf] at hc; exact absurd hc (by simp)
  | emit j l1 l2 hrun hcf => rw [hcf] at hc; exact absurd hc (by simp)
  | _ => exact ⟨rfl, rfl, rfl⟩

theorem cancelled_frozen {s t : PoolState} (h : Reach s t)
    (hc : s.cancelled = true) :
    t.accepted = s.accepted ∧ t.out = s.out ∧ t.opens = s.opens := by
  induction h with
  | refl => exact ⟨rfl, rfl, rfl⟩
  | tail hr hstep ih =>
    have hcm := cancel_mono hr hc
    have hf := cancelled_frozen_step hstep hcm
    exact ⟨hf.1.trans ih.1, hf.2.1.trans ih.2.1, hf.2.2.trans ih.2.2⟩

theorem hexDigit_inj : ∀ a b : Fin 16, hexDigit a = hexDigit b → a = b := by
  decide

theorem hexEncodeByte_inj (a b : Byte) (h : hexEncodeByte a = hexEncodeByte b) :
    a = b := by
  simp only [hexEncodeByte, List.cons.injEq, and_true] at h
  have v1 := congrArg Fin.val (hexDigit_inj _ _ h.1)
  have v2 := congrArg Fin.val (hexDigit_inj _ _ h.2)
  simp only [] at v1 v2
  apply Fin.ext
  omega

theorem hexEncode_inj : ∀ xs ys : List Byte, hexEncode xs = hexEncode ys → xs = ys := by
  intro xs
  induction xs with
  | nil =>
    intro ys h
    cases ys with
    | nil => rfl
    | cons b bs => simp [hexEncode, hexEncodeByte] at h
  | cons a as ih =>
    intro ys h
    cases ys with
    | nil => simp [hexEncode, hexEncodeByte] at h
    | cons b bs =>
      simp only [hexEncode, List.map_cons, List.flatten_cons, hexEncodeByte,
        List.cons_append, List.nil_append, List.cons.injEq] at h
      have hab : a = b := by
        apply hexEncodeByte_inj
        simp only [hexEncodeByte, List.cons.injEq, and_true]
        exact ⟨h.1, h.2.1⟩
      have htl : as = bs := ih bs (by simpa [hexEncode] using h.2.2)
      rw [hab, htl]

section Claims

/-- Claim C2.  For every Job processed by the digest engine, the digest
result is populated in full or not at all: starting from an empty sums
list, if the engine leaves an error on the Job then the sums list is still
empty (no digest bytes at all, even when the read failed after bytes were
absorbed), and if the engine succeeds there is exactly one digest per
configured algorithm, so a multi-algorithm Job never exposes results for
only some algorithms. -/
theorem digest_all_or_nothing (j : Job) (hs : j.sums = []) :
    ((Job.doJob j).err.isSome = true → (Job.doJob j).sums = [])
    ∧ ((Job.doJob j).err = none → (Job.doJob j).sums.length = j.algs.length) := by
  unfold Job.doJob Job.doT
  cases herr : j.err with
  | some e => simp [herr, hs]
  | none =>
    simp only [herr, Option.isSome_none, Bool.false_eq_true, if_false]
    cases hopen : j.fsys j.path with
    | error e => simp [hs]
    | ok file =>
      cases hstat : file.statRes with
      | error e => simp [hs, hstat]
      | ok inf =>
        cases hread : file.readErr with
        | some e => simp [hs, hstat, hread]
        | none => simp [hs, hstat, hread, multiCopy_fst]

/-- A filesystem holding one file that opens and stats successfully and
whose content arrives in two chunks. -/
def file1 : FSFile :=
  { statRes := Except.ok ⟨3, 420, 0⟩, chunks := [[1, 2], [3]], readErr := none }

/-- The constant filesystem serving file1 at every path. -/
def fs1 : FS := fun _ => Except.ok file1

/-- The identity digest function, a convenient concrete Alg. -/
def algId : Alg := fun bs => bs

/-- The reversal digest function, a second concrete Alg distinguishing
byte order. -/
def algRev : Alg := fun bs => bs.reverse

/-- A Job over fs1 configured with two algorithms. -/
def jOk : Job :=
  { path := "f", algs := [algId, algRev], valid := none, sums := [],
    err := none, fsys := fs1, info := none }

/-- A Job whose open fails. -/
def jBad : Job :=
  { path := "x", algs := [algId], valid := none, sums := [], err := none,
    fsys := fsEmpty, info := none }

/-- Witness for claim C2 at concrete Jobs: a failing open leaves the sums
empty, and a successful two-algorithm digest produces two sums. -/
theorem digest_all_or_nothing_witness :
    (Job.doJob jBad).sums = [] ∧ (Job.doJob jOk).sums.length = jOk.algs.length :=
  ⟨(digest_all_or_nothing jBad rfl).1 rfl, (digest_all_or_nothing jOk rfl).2 rfl⟩

/-- Claim C3.  For a Job over a readable file, the digest engine performs
exactly one sequential pass over the content: the copy loop issues one
Read per chunk plus the final EOF Read, a count independent of the
accumulator list and in particular of the number of algorithms, and every
algorithm digests the same byte sequence, namely the concatenation of all
chunks, so the resulting sums are each algorithm applied to the full
content. -/
theorem digest_single_pass (j : Job) (file : FSFile) (inf : FileInfo)
    (herr : j.err = none) (hs : j.sums = [])
    (hopen : j.fsys j.path = Except.ok file)
    (hstat : file.statRes = Except.ok inf)
    (hread : file.readErr = none) :
    (Job.doJob j).sums = j.algs.map (fun a => a file.chunks.flatten)
    ∧ ∀ accs : List (Alg × List Byte),
        (multiCopy file.chunks accs).2 = file.chunks.length + 1 := by
  constructor
  · unfold Job.doJob Job.doT
    simp [herr, hopen, hstat, hread, hs, multiCopy_fst, List.map_map,
      Function.comp]
  · intro accs
    exact multiCopy_snd file.chunks accs

/-- Witness for claim C3 at a concrete two-chunk file with two
algorithms. -/
theorem digest_single_pass_witness :
    (Job.doJob jOk).sums = jOk.algs.map (fun a => a file1.chunks.flatten)
    ∧ (multiCopy file1.chunks []).2 = file1.chunks.length + 1 := by
  have h := digest_single_pass jOk file1 ⟨3, 420, 0⟩ rfl rfl rfl rfl rfl
  exact ⟨h.1, h.2 []⟩

/-- Claim C4.  IsValid is true exactly when a computed digest is present
and its bytes coincide with the expected digest bytes (bytes.Equal
semantics, nil reading as empty); an absent computed digest yields false,
and a length mismatch between computed and expected digest yields
false. -/
theorem isValid_spec (j : JobV2) :
    (JobV2.IsValid j = true ↔ (j.sum.isSome = true ∧ optBytes j.sum = optBytes j.valid))
    ∧ (j.sum = none → JobV2.IsValid j = false)
    ∧ (∀ bs bv, j.sum = some bs → j.valid = some bv →
        bs.length ≠ bv.length → JobV2.IsValid j = false) := by
  refine ⟨?_, ?_, ?_⟩
  · simp [JobV2.IsValid]
  · intro hnone
    simp [JobV2.IsValid, hnone]
  · intro bs bv hbs hbv hlen
    simp [JobV2.IsValid, hbs, hbv, optBytes]
    exact fun heq => absurd (congrArg List.length heq) hlen

/-- A JobV2 whose computed digest matches its expected digest. -/
def jValid : JobV2 :=
  { path := "p", alg := algId, valid := some [1], sum := some [1],
    err := none, fsys := fsEmpty, info := none }

/-- A JobV2 whose computed digest has a different length than its expected
digest. -/
def jMismatch : JobV2 :=
  { path := "p", alg := algId, valid := some [1], sum := some [1, 2],
    err := none, fsys := fsEmpty, info := none }

/-- Witness for claim C4: IsValid accepts an exact match and rejects a
length mismatch. -/
theorem isValid_spec_witness :
    JobV2.IsValid jValid = true ∧ JobV2.IsValid jMismatch = false :=
  ⟨(isValid_spec jValid).1.mpr ⟨rfl, rfl⟩,
   (isValid_spec jMismatch).2.2 [1, 2] [1] rfl rfl (by decide)⟩

/-- Claim C9.  In the single-algorithm variant of src/job.go, the accessor
Sum copies the stored checksum into a nil destination slice, so it returns
the empty slice for every Job whatever checksum was computed; SumString,
by contrast, hex-encodes the stored checksum, and since hex encoding is
injective the computed checksum is observable through SumString though
never through Sum. -/
theorem sum_accessor_always_nil (j : JobV2) :
    JobV2.Sum j = []
    ∧ JobV2.SumString j = hexEncode (optBytes j.sum)
    ∧ ∀ j2 : JobV2, JobV2.SumString j = JobV2.SumString j2 →
        optBytes j.sum = optBytes j2.sum := by
  refine ⟨by simp [JobV2.Sum, goCopy], rfl, ?_⟩
  intro j2 h
  exact hexEncode_inj _ _ h

/-- A JobV2 carrying a successfully computed two-byte checksum. -/
def jSummed : JobV2 :=
  { path := "p", alg := algId, valid := none, sum := some [171, 205],
    err := none, fsys := fsEmpty, info := none }

/-- Witness for claim C9 at a Job with a non-empty computed checksum: Sum
still returns the empty slice while SumString exposes the checksum. -/
theorem sum_accessor_always_nil_witness :
    JobV2.Sum jSummed = []
    ∧ JobV2.SumString jSummed = hexEncode (optBytes jSummed.sum)
    ∧ optBytes jSummed.sum = optBytes jSummed.sum :=
  ⟨(sum_accessor_always_nil jSummed).1,
   (sum_accessor_always_nil jSummed).2.1,
   (sum_accessor_always_nil jSummed).2.2 jSummed rfl⟩

/-- Claim C6.  Add called after the cancellation signal has fired returns
the walk-canceled error synchronously and enqueues nothing (the result
carries no Job and the input queue is handed back only in the success
case); when the signal has not fired, Add hands the newly constructed Job
to the input channel (the rendezvous is the append) and returns nil. -/
theorem add_cancelled_spec (fsys : FS) (algs : List Alg) (path : String)
    (queue : List Job) :
    pipeAdd true fsys algs path queue = Except.error "walk canceled"
    ∧ pipeAdd false fsys algs path queue =
        Except.ok (queue ++
          [{ path := path, algs := algs, valid := none, sums := [],
             err := none, fsys := fsys, info := none }]) :=
  ⟨rfl, rfl⟩

/-- Counterexample for claim C7 as stated: in the src/pipe.go variant,
constructing a pool with zero configured algorithms does not fail; the
constructor silently substitutes the sha256 default and returns a working
pipe, so construction with zero algorithms succeeds there. -/
theorem zero_algs_defaulted_counterexample :
    pipeV1DefaultAlgs [] = [sha256New] ∧ pipeV1DefaultAlgs [] ≠ [] := by
  constructor
  · rfl
  · simp [pipeV1DefaultAlgs]

/-- Claim C7 amended.  In the Config-based constructor of
unnamed/part_001, a pool construction with zero configured algorithms
fails with the construction error before any worker is spawned, and a
successfully constructed pool always has at least one algorithm; in the
src/pipe.go variant the constructor never fails, instead defaulting an
empty algorithm list to sha256, so there too a pool never runs with an
empty algorithm list. -/
theorem newPipe_zero_algs (fsys : FS) (conf : Config) :
    (conf.algs = [] → part001NewPipe fsys conf =
      Except.error "checksum algorithms not defined")
    ∧ (∀ r, part001NewPipe fsys conf = Except.ok r → conf.algs ≠ [])
    ∧ (∀ algs : List Alg, pipeV1DefaultAlgs algs ≠ []) := by
  refine ⟨?_, ?_, ?_⟩
  · intro h
    simp [part001NewPipe, h]
  · intro r hok hnil
    simp [part001NewPipe, hnil] at hok
  · intro algs
    unfold pipeV1DefaultAlgs
    cases algs with
    | nil => simp
    | cons a as => simp

/-- Witness for the amended claim C7: a concrete empty configuration is
rejected by the part_001 constructor, and the pipe.go defaulting never
yields an empty algorithm list. -/
theorem newPipe_zero_algs_witness :
    part001NewPipe fsEmpty ⟨1, []⟩ =
      Except.error "checksum algorithms not defined"
    ∧ pipeV1DefaultAlgs [] ≠ [] :=
  ⟨(newPipe_zero_algs fsEmpty ⟨1, []⟩).1 rfl,
   (newPipe_zero_algs fsEmpty ⟨1, []⟩).2.2 []⟩

theorem walkLoop_some (each : Job → Option String → Option String)
    (msg : String) : ∀ js, walkLoop each (some msg) js = (some msg, []) := by
  intro js
  induction js with
  | nil => rfl
  | cons j rest ih => simpa [walkLoop] using ih

theorem walkLoop_none_pre (each : Job → Option String → Option String) :
    ∀ pre rest, (∀ j ∈ pre, each j j.err = none) →
      walkLoop each none (pre ++ rest) =
        ((walkLoop each none rest).1, pre ++ (walkLoop each none rest).2) := by
  intro pre
  induction pre with
  | nil => intro rest h; simp
  | cons p ps ih =>
    intro rest h
    have hp : each p p.err = none := h p (by simp)
    have hps : ∀ j ∈ ps, each j j.err = none := fun j hj => h j (by simp [hj])
    simp [walkLoop, hp, ih rest hps]

/-- Claim C8.  Walk captures traversal-stage and callback-stage errors
independently: when neither stage failed the terminal result is nil; when
the terminal result is a composite error it exposes exactly the WalkDir
error and the recorded callback error; and when the first callback error
occurs at some result while traversal succeeded, the terminal result
carries a nil traversal error together with that callback error, and the
callback is invoked precisely on the results up to and including the
erroring one, never again afterwards. -/
theorem walk_error_stages (each : Job → Option String → Option String)
    (results : List Job) (wde : Option String) :
    (wde = none → (walkLoop each none results).1 = none →
      Walk wde results each = none)
    ∧ (∀ w, Walk wde results each = some w →
        w.walkDirErr = wde ∧ w.jobFuncErr = (walkLoop each none results).1)
    ∧ (∀ pre jbad post e, results = pre ++ jbad :: post →
        (∀ j ∈ pre, each j j.err = none) → each jbad jbad.err = some e →
        Walk none results each = some ⟨none, some e⟩
        ∧ (walkLoop each none results).2 = pre ++ [jbad]) := by
  refine ⟨?_, ?_, ?_⟩
  · intro h1 h2
    simp [Walk, h1, h2]
  · intro w hw
    unfold Walk at hw
    by_cases hc : ((walkLoop each none results).1.isSome || wde.isSome) = true
    · rw [if_pos hc] at hw
      cases hw
      exact ⟨rfl, rfl⟩
    · rw [if_neg hc] at hw
      cases hw
  · intro pre jbad post e hres hpre hbad
    subst hres
    have hloop := walkLoop_none_pre each pre (jbad :: post) hpre
    have hbadloop : walkLoop each none (jbad :: post) = (some e, [jbad]) := by
      simp [walkLoop, hbad, walkLoop_some]
    rw [hbadloop] at hloop
    constructor
    · simp [Walk, hloop]
    · simp [hloop]

/-- The callback that simply reports back the error of each completed
Job. -/
def eachErr : Job → Option String → Option String := fun _ e => e

/-- A successfully completed Job handed to the Walk callback. -/
def jWalkOk : Job :=
  { path := "w1", algs := [], valid := none, sums := [], err := none,
    fsys := fsEmpty, info := none }

/-- A completed Job carrying an error, making the callback report an
error. -/
def jWalkBad : Job :=
  { path := "w2", algs := [], valid := none, sums := [], err := some "cb",
    fsys := fsEmpty, info := none }

/-- A further completed Job drained after the callback error; the callback
must not run on it. -/
def jWalkLate : Job :=
  { path := "w3", algs := [], valid := none, sums := [], err := none,
    fsys := fsEmpty, info := none }

/-- Witness for claim C8: with a clean traversal and the callback failing
on the second of three results, Walk returns a composite error with nil
traversal part and the callback error, and the callback ran only on the
first two results. -/
theorem walk_error_stages_witness :
    Walk none [jWalkOk, jWalkBad, jWalkLate] eachErr = some ⟨none, some "cb"⟩
    ∧ (walkLoop eachErr none [jWalkOk, jWalkBad, jWalkLate]).2 =
        [jWalkOk, jWalkBad] := by
  have h := (walk_error_stages eachErr [jWalkOk, jWalkBad, jWalkLate] none).2.2
    [jWalkOk] jWalkBad [jWalkLate] "cb" rfl
    (by intro j hj; rw [List.mem_singleton] at hj; subst hj; rfl) rfl
  exact h

/-- Claim C1.  In every run of a pool of at least one worker in which the
cancellation signal never fired (the signal is monotone, so a final
uncancelled state means it never fired) and the output queue has been
closed, the number of emitted results equals the number of accepted
submissions, every worker has exited, every emitted result is the digest
engine output of some submitted Job, and the closure is final: no further
step can emit a result, accept a submission, or close the output queue
again. -/
theorem pool_exactly_n_results (n : Nat) (s : PoolState) (hn : 0 < n)
    (hr : Reach (initState n) s) (hc : s.cancelled = false)
    (ho : s.outClosed = true) :
    s.out.length = s.accepted
    ∧ s.exitedW = s.numGos
    ∧ (∀ x ∈ s.out, ∃ j, x = Job.doJob j)
    ∧ (∀ t, Step s t → t.out = s.out ∧ t.outClosed = true ∧
        t.accepted = s.accepted) := by
  have inv := inv_reach hr
  have hng : s.numGos = n := numGos_const hr
  have hex : s.exitedW = s.numGos := inv.closedExit ho
  have hq : s.queue = [] := inv.exitQueue (by omega) hex
  have hrw : s.runW = [] := by
    have w := inv.wcount
    have : s.runW.length = 0 := by omega
    exact List.length_eq_zero.mp this
  have hlen : s.out.length = s.accepted := by
    have heq := inv.outEq hc
    rw [hq, hrw] at heq
    simpa using heq
  refine ⟨hlen, hex, inv.outShape, ?_⟩
  intro t hstep
  cases hstep with
  | submit j hcf hin =>
    exact absurd (inv.exitClosed (by omega)) (by simp [hin])
  | closeInput hin =>
    exact absurd (inv.exitClosed (by omega)) (by simp [hin])
  | cancel => exact ⟨rfl, ho, rfl⟩
  | dequeue j rest hidle hq2 =>
    rw [hq] at hq2
    cases hq2
  | discard j l1 l2 hrun hcf =>
    rw [hc] at hcf
    cases hcf
  | emit j l1 l2 hrun hcf =>
    rw [hrw] at hrun
    exact absurd hrun (by simp)
  | wexit hidle hq2 hin =>
    have w := inv.wcount
    omega
  | closeOut hex2 hoc =>
    rw [ho] at hoc
    cases hoc

/-- The freshly constructed one-worker pool of the C1 witness run. -/
def w1s0 : PoolState := initState 1

/-- The witness run after Close closes the input channel. -/
def w1s1 : PoolState := { w1s0 with inClosed := true }

/-- The witness run after the single worker drains and exits. -/
def w1s2 : PoolState := { w1s1 with idleW := w1s1.idleW - 1, exitedW := w1s1.exitedW + 1 }

/-- The witness run after wg.Wait closes the output channel. -/
def w1s3 : PoolState := { w1s2 with outClosed := true }

theorem w1_reach : Reach (initState 1) w1s3 :=
  Relation.ReflTransGen.tail
    (Relation.ReflTransGen.tail
      (Relation.ReflTransGen.tail Relation.ReflTransGen.refl
        (Step.closeInput w1s0 rfl))
      (Step.wexit w1s1 (by decide) rfl rfl))
    (Step.closeOut w1s2 rfl rfl)

/-- Witness for claim C1 on a concrete complete run of a one-worker pool
with zero accepted jobs: at output closure the emitted count equals the
accepted count and the worker has exited. -/
theorem pool_exactly_n_results_witness :
    w1s3.out.length = w1s3.accepted ∧ w1s3.exitedW = w1s3.numGos := by
  have h := pool_exactly_n_results 1 w1s3 (by decide) w1_reach rfl rfl
  exact ⟨h.1, h.2.1⟩

/-- Claim C5.  From any reachable pool state in which the cancellation
signal has fired with K submissions accepted so far, every further
reachable state has the same accepted count (no later submission enqueues
a Job; by add_cancelled_spec the call instead returns the walk-canceled
error), the same output queue (a Job dequeued after the signal is
discarded and emits nothing) and the same open count (the discarded Job is
dropped without the digest engine opening any file), so the total number
of emitted results stays at most K. -/
theorem pool_cancelled_bound (n : Nat) (s t : PoolState)
    (hr : Reach (initState n) s) (hc : s.cancelled = true)
    (ht : Reach s t) :
    t.accepted = s.accepted ∧ t.out = s.out ∧ t.opens = s.opens
    ∧ t.out.length ≤ s.accepted := by
  have hf := cancelled_frozen ht hc
  refine ⟨hf.1, hf.2.1, hf.2.2, ?_⟩
  have inv := inv_reach hr
  rw [hf.2.1]
  have := inv.outLe
  omega

/-- A concrete Job submitted in the C5 witness run. -/
def jCancel : Job :=
  { path := "a", algs := [algId], valid := none, sums := [], err := none,
    fsys := fsEmpty, info := none }

/-- The C5 witness run after one accepted submission. -/
def w5s1 : PoolState :=
  { w1s0 with queue := w1s0.queue ++ [jCancel], accepted := w1s0.accepted + 1 }

/-- The C5 witness run after the context is cancelled with one accepted
submission. -/
def w5s2 : PoolState := { w5s1 with cancelled := true }

/-- The C5 witness run after the worker dequeues the pending Job. -/
def w5s3 : PoolState :=
  { w5s2 with
      queue := []
      idleW := w5s2.idleW - 1
      runW := jCancel :: w5s2.runW }

/-- The C5 witness run after the worker observes the cancelled context and
discards the Job. -/
def w5s4 : PoolState :=
  { w5s3 with runW := ([] : List Job), idleW := w5s3.idleW + 1 }

theorem w5_reach_cancel : Reach (initState 1) w5s2 :=
  Relation.ReflTransGen.tail
    (Relation.ReflTransGen.tail Relation.ReflTransGen.refl
      (Step.submit w1s0 jCancel rfl rfl))
    (Step.cancel w5s1)

theorem w5_reach_discard : Reach w5s2 w5s4 :=
  Relation.ReflTransGen.tail
    (Relation.ReflTransGen.tail Relation.ReflTransGen.refl
      (Step.dequeue w5s2 jCancel [] (by decide) rfl))
    (Step.discard w5s3 jCancel [] [] rfl rfl)

/-- Witness for claim C5 on a concrete run where cancellation fires after
one accepted submission and the worker then dequeues and discards the
Job: nothing is emitted, no file is opened, and the accepted count stays
one. -/
theorem pool_cancelled_bound_witness :
    w5s4.accepted = w5s2.accepted ∧ w5s4.out = w5s2.out
    ∧ w5s4.opens = w5s2.opens ∧ w5s4.out.length ≤ w5s2.accepted :=
  pool_cancelled_bound 1 w5s2 w5s4 w5_reach_cancel rfl w5_reach_discard

/-- Claim C10.  A Job that already carries an error when the digest engine
runs is returned at once with every field unchanged and without any file
being opened, and a worker processing it emits exactly that unchanged Job
on the output queue without incrementing the open count. -/
theorem preerrored_passthrough (j : Job) (e : String) (he : j.err = some e) :
    Job.doT j = (j, false)
    ∧ (∀ (s : PoolState) (l1 l2 : List Job),
        s.runW = l1 ++ j :: l2 → s.cancelled = false →
        Step s { s with runW := l1 ++ l2, idleW := s.idleW + 1,
                        out := s.out ++ [j] }) := by
  have hdo : Job.doT j = (j, false) := by simp [Job.doT, he]
  refine ⟨hdo, ?_⟩
  intro s l1 l2 hrun hc
  have h := Step.emit s j l1 l2 hrun hc
  have hdj : Job.doJob j = j := by simp [Job.doJob, hdo]
  rw [hdj, hdo] at h
  simpa using h

/-- A Job already carrying an error before it reaches a worker. -/
def jErr : Job :=
  { path := "p", algs := [], valid := none, sums := [], err := some "boom",
    fsys := fsEmpty, info := none }

/-- A pool state whose single worker holds the pre-errored Job. -/
def w10s : PoolState := { initState 1 with runW := [jErr], idleW := 0 }

/-- Witness for claim C10 at a concrete pre-errored Job: the digest engine
returns it unchanged without opening a file, and the worker emits it
as-is. -/
theorem preerrored_passthrough_witness :
    Job.doT jErr = (jErr, false)
    ∧ Step w10s
        { w10s with
            runW := []
            idleW := w10s.idleW + 1
            out := w10s.out ++ [jErr] } := by
  have h := preerrored_passthrough jErr "boom" rfl
  exact ⟨h.1, h.2 w10s [] [] rfl rfl⟩

end Claims

end Checksum
